import Mathlib

/-!
Shallow embedding of the algo-relay feed relay (Go) and proofs about it.

The repository contains several revisions of the same functions; where two
revisions of a function disagree they are embedded in separate namespaces:

- Repository functions (repository.go, src/unnamed/part_003): event
  classification, tag extraction.
- SimpleAlgo: the combined-feed scoring revision (src/unnamed/part_005,
  first file; identical functions appear in src/unnamed/part_007).
- KindAlgo: the kind-aware, flat-variant revision (src/unnamed/part_004).
- KindMapAlgo: the kind-aware, per-kind-map revision (src/unnamed/part_006).

Conventions: Go float64 is embedded as Real; Go int and int64 as Int;
timestamps used by the cache model are in seconds; ages fed to the scoring
functions are in hours, mirroring time.Since(createdAt).Hours().
Go maps that the code iterates are embedded as association lists in first
insertion order, and the unstable sort.Slice descending sort is embedded as
an insertion sort on the same comparison; all properties proved about them
are order/permutation invariant, and concrete runs use at most one note per
score so the choice of order is immaterial. External library calls
(JSON unmarshalling, bolt11 decoding) are passed in as function parameters.
-/

/-- A nostr event as used by the repository: the fields of nostr.Event that
the embedded code reads. -/
structure NostrEvent where
  id : String
  pubkey : String
  kind : Int
  createdAt : Int
  content : String
  tags : List (List String)
  deriving Repr, DecidableEq

/-- FeedNote / FeedPost from the Go source: an event together with its score.
The score type is a parameter (Go uses float64; closed evaluations use Rat). -/
structure FeedNote (α : Type) where
  event : NostrEvent
  score : α
  deriving Repr, DecidableEq

/-- The author pubkey of a feed note. -/
def noteAuthor {α : Type} (n : FeedNote α) : String := n.event.pubkey

/-- Result of a Go function returning (value, error) whose body may also
index a slice out of bounds: panics models the out-of-bounds panic, fault
models a returned error. -/
inductive Fetch (β : Type) where
  | panics
  | fault
  | ok (val : β)
  deriving Repr, DecidableEq

/-- getTaggedPostID (repository.go): first tag whose element 0 is "e",
checked only for non-emptiness, then the element at index 1 is read. -/
def getTaggedPostID : List (List String) → Fetch String
  | [] => .fault
  | tag :: rest =>
    if 0 < tag.length ∧ tag.headD "" = "e" then
      match tag[1]? with
      | some v => .ok v
      | none => .panics
    else getTaggedPostID rest

/-- getZapperID (repository.go): first tag whose element 0 is "description";
the element at index 1 is read and handed to json.Unmarshal, which is
abstracted as the parseDescriptionPubkey parameter. -/
def getZapperID (parseDescriptionPubkey : String → Option String) :
    List (List String) → Fetch String
  | [] => .fault
  | tag :: rest =>
    if 0 < tag.length ∧ tag.headD "" = "description" then
      match tag[1]? with
      | some d =>
        match parseDescriptionPubkey d with
        | some pk => .ok pk
        | none => .fault
      | none => .panics
    else getZapperID parseDescriptionPubkey rest

/-- getZapAmount and decodeBolt11Invoice (repository.go): first tag whose
element 0 is "bolt11"; hrpToMillisat is the external decoder, and the
millisat value is divided by 1000 with Go (truncating) integer division. -/
def getZapAmount (hrpToMillisat : String → Option Int) :
    List (List String) → Fetch Int
  | [] => .fault
  | tag :: rest =>
    if 0 < tag.length ∧ tag.headD "" = "bolt11" then
      match tag[1]? with
      | some b =>
        match hrpToMillisat b with
        | some ms => .ok (ms.tdiv 1000)
        | none => .fault
      | none => .panics
    else getZapAmount hrpToMillisat rest

/-- getRootNoteID (repository.go): scans the tags in order; the first tag
with element 0 equal to "e" that ALSO has length at least 3 and element 2
equal to "root" or to the empty string yields its element 1 (breaking the
loop); every other tag, including shorter e-tags, is skipped. -/
def getRootNoteID : List (List String) → String
  | [] => ""
  | tag :: rest =>
    if 0 < tag.length ∧ tag.headD "" = "e" then
      if 3 ≤ tag.length ∧ (tag.getD 2 "" = "root" ∨ tag.getD 2 "" = "") then
        tag.getD 1 ""
      else getRootNoteID rest
    else getRootNoteID rest

/-- Outcome of SaveNostrEvent: which row (if any) the event is persisted as,
or the error/panic produced instead. -/
inductive SaveResult where
  | note
  | comment (rootId : String)
  | reaction (postId : String)
  | zap (postId : String) (zapperId : String) (amountSats : Int)
  | fault
  | panics
  | unhandled (kind : Int)
  deriving Repr, DecidableEq

/-- savePostOrComment (repository.go): a kind-1 event is saved as a comment
with root getRootNoteID when that is non-empty, otherwise as a note. -/
def savePostOrComment (ev : NostrEvent) : SaveResult :=
  let rootID := getRootNoteID ev.tags
  if rootID = "" then .note else .comment rootID

/-- saveReaction (repository.go). -/
def saveReaction (ev : NostrEvent) : SaveResult :=
  match getTaggedPostID ev.tags with
  | .ok pid => .reaction pid
  | .fault => .fault
  | .panics => .panics

/-- saveZap (repository.go): post id, then amount, then zapper id. -/
def saveZap (parseDescriptionPubkey : String → Option String)
    (hrpToMillisat : String → Option Int) (ev : NostrEvent) : SaveResult :=
  match getTaggedPostID ev.tags with
  | .panics => .panics
  | .fault => .fault
  | .ok pid =>
    match getZapAmount hrpToMillisat ev.tags with
    | .panics => .panics
    | .fault => .fault
    | .ok amt =>
      match getZapperID parseDescriptionPubkey ev.tags with
      | .panics => .panics
      | .fault => .fault
      | .ok zid => .zap pid zid amt

/-- SaveNostrEvent (repository.go): dispatch on the event kind; kinds other
than 1, 7 and 9735 fall to the default branch, which returns the error
"unhandled event kind". -/
def SaveNostrEvent (parseDescriptionPubkey : String → Option String)
    (hrpToMillisat : String → Option Int) (ev : NostrEvent) : SaveResult :=
  if ev.kind = 1 then savePostOrComment ev
  else if ev.kind = 7 then saveReaction ev
  else if ev.kind = 9735 then saveZap parseDescriptionPubkey hrpToMillisat ev
  else .unhandled ev.kind

/-- The combined condition under which the getRootNoteID loop selects a tag:
used to characterise the loop by List.find?. -/
def isRootCandidate (tag : List String) : Bool :=
  decide (3 ≤ tag.length ∧ tag.headD "" = "e" ∧
    (tag.getD 2 "" = "root" ∨ tag.getD 2 "" = ""))

/-- The first tag whose element 0 equals the given name and which is
non-empty: the selection performed by getTaggedPostID and getZapperID. -/
def firstTagNamed (name : String) (tags : List (List String)) :
    Option (List String) :=
  tags.find? (fun tag => decide (0 < tag.length ∧ tag.headD "" = name))

/-- Weights read from the environment at startup (the package-level float64
variables of the Go source). -/
structure Weights where
  interactionsWithAuthor : ℝ
  commentsGlobal : ℝ
  reactionsGlobal : ℝ
  zapsGlobal : ℝ
  recency : ℝ
  viralDampening : ℝ
  decayRate : ℝ

/-- EventWithMeta: the per-note global counts and creation time used by the
scoring functions; createdAtHours is the creation time in hours. -/
structure EventWithMeta where
  globalCommentsCount : Int
  globalReactionsCount : Int
  globalZapsCount : Int
  createdAtHours : ℝ

namespace SimpleAlgo

/-- calculateRecencyFactor of src/unnamed/part_005 (and part_007): the raw
exponential, with no scaling and no clamping. -/
noncomputable def calculateRecencyFactor (decayRate hoursSinceCreation : ℝ) : ℝ :=
  Real.exp (-(decayRate * hoursSinceCreation))

/-- calculateAuthorPostScore of src/unnamed/part_005 (and part_007): note
that the last summand is weightInteractionsWithAuthor multiplied by itself;
the interaction count is not an input of this revision. -/
noncomputable def calculateAuthorPostScore (w : Weights) (nowHours : ℝ)
    (e : EventWithMeta) : ℝ :=
  let recencyFactor := calculateRecencyFactor w.decayRate (nowHours - e.createdAtHours)
  (e.globalCommentsCount : ℝ) * w.commentsGlobal +
    (e.globalReactionsCount : ℝ) * w.reactionsGlobal +
    (e.globalZapsCount : ℝ) * w.zapsGlobal +
    recencyFactor * w.recency +
    w.interactionsWithAuthor * w.interactionsWithAuthor

end SimpleAlgo

namespace KindAlgo

/-- calculateRecencyFactor of src/unnamed/part_004 (identical in part_006
and algorithm.go): exponential decay scaled by 100 and clamped into
the closed interval from 0.001 to 1.0. -/
noncomputable def calculateRecencyFactor (decayRate hoursSinceCreation : ℝ) : ℝ :=
  let scalingFactor : ℝ := 100.0
  let recencyFactor := Real.exp (-(decayRate * hoursSinceCreation)) * scalingFactor
  if recencyFactor > 1.0 then 1.0
  else if recencyFactor < 0.001 then 0.001
  else recencyFactor

/-- calculateAuthorNoteScore of src/unnamed/part_004 (identical in
part_006): the interaction count enters as interactionCount times
weightInteractionsWithAuthor. -/
noncomputable def calculateAuthorNoteScore (w : Weights) (nowHours : ℝ)
    (e : EventWithMeta) (interactionCount : Int) : ℝ :=
  let recencyFactor := calculateRecencyFactor w.decayRate (nowHours - e.createdAtHours)
  (e.globalCommentsCount : ℝ) * w.commentsGlobal +
    (e.globalReactionsCount : ℝ) * w.reactionsGlobal +
    (e.globalZapsCount : ℝ) * w.zapsGlobal +
    recencyFactor * w.recency +
    (interactionCount : ℝ) * w.interactionsWithAuthor

end KindAlgo

/-- The affinity score exactly as the specification words it:
c times W_C plus r times W_R plus z times W_Z plus rec times W_REC plus
i times W_AUTHOR. -/
noncomputable def specAffinityScore (w : Weights) (c r z : Int)
    (recencyFactor : ℝ) (i : Int) : ℝ :=
  (c : ℝ) * w.commentsGlobal + (r : ℝ) * w.reactionsGlobal +
    (z : ℝ) * w.zapsGlobal + recencyFactor * w.recency +
    (i : ℝ) * w.interactionsWithAuthor

/-- Clamping as the specification words it: clamp(x, lo, hi). -/
noncomputable def specClamp (lo hi x : ℝ) : ℝ := max lo (min hi x)

/-- All-ones weights (the Go default when no environment variable is set). -/
noncomputable def unitWeights : Weights := ⟨1, 1, 1, 1, 1, 1, 1⟩

/-- A candidate note with zero global counts created at hour 0. -/
noncomputable def zeroMeta : EventWithMeta := ⟨0, 0, 0, 0⟩

/-- numFeedVariants of the kind-aware revisions. -/
def numFeedVariants : Nat := 5

/-- variantFeedSize of the kind-aware revisions. -/
def variantFeedSize : Nat := 100

/-- feedCacheDuration, in seconds (5 minutes in the source). -/
def feedCacheDuration : Int := 300

/-- Association-list update, modelling map insertion (Store) of sync.Map and
of the Go map of feed variants by kind. -/
def assocStore {κ β : Type} [BEq κ] (key : κ) (v : β) (m : List (κ × β)) :
    List (κ × β) :=
  if m.any (fun p => p.1 == key) then
    m.map (fun p => if p.1 == key then (key, v) else p)
  else m ++ [(key, v)]

/-- Association-list lookup, modelling map lookup (Load). -/
def assocLoad {κ β : Type} [BEq κ] (key : κ) (m : List (κ × β)) : Option β :=
  (m.find? (fun p => p.1 == key)).map (fun p => p.2)

/-- One step of grouping notes by author pubkey: append the note to its
author group, creating the group on first appearance. -/
def insertByAuthor {α : Type} (acc : List (String × List (FeedNote α)))
    (n : FeedNote α) : List (String × List (FeedNote α)) :=
  if acc.any (fun p => p.1 == n.event.pubkey) then
    acc.map (fun p =>
      if p.1 == n.event.pubkey then (p.1, p.2 ++ [n]) else p)
  else acc ++ [(n.event.pubkey, [n])]

/-- Grouping notes by author pubkey, modelling the Go map grouped in first
insertion order: the authorNotes map of generateFeedVariants. -/
def groupByAuthor {α : Type} (feed : List (FeedNote α)) :
    List (String × List (FeedNote α)) :=
  feed.foldl insertByAuthor []

/-- Well-formedness of an author grouping: group keys are distinct, every
group is non-empty, and every note of a group has the key as author. -/
def GroupsWF {α : Type} (gs : List (String × List (FeedNote α))) : Prop :=
  (gs.map Prod.fst).Nodup ∧
  ∀ g ∈ gs, g.2 ≠ [] ∧ ∀ n ∈ g.2, n.event.pubkey = g.1

/-- The descending-score comparison used by sort.Slice in the source. -/
def scoreDescRel {α : Type} [LinearOrder α] (a b : FeedNote α) : Prop :=
  b.score ≤ a.score

instance {α : Type} [LinearOrder α] : DecidableRel (scoreDescRel (α := α)) :=
  fun a b => inferInstanceAs (Decidable (b.score ≤ a.score))

/-- Sort by score descending, then truncate to the variant size: the tail of
both generateFeedVariants revisions. -/
def sortAndTruncate {α : Type} [LinearOrder α] (variantSize : Nat)
    (feed : List (FeedNote α)) : List (FeedNote α) :=
  (List.insertionSort scoreDescRel feed).take variantSize

/-- The inner viral loop shared by both kind-aware revisions: walk the viral
notes in pool order; stop when the variant is full; append a note whose
author is not in the used set and mark the author used. -/
def addViralToFeed {α : Type} (variantSize : Nat) :
    List (FeedNote α) → List (FeedNote α) → List String →
      List (FeedNote α) × List String
  | [], feed, used => (feed, used)
  | v :: rest, feed, used =>
    if variantSize ≤ feed.length then (feed, used)
    else if used.contains v.event.pubkey then
      addViralToFeed variantSize rest feed used
    else addViralToFeed variantSize rest (feed ++ [v]) (v.event.pubkey :: used)

/-- CachedFeeds of the kind-aware revisions: feed variants by kind, the
insertion timestamp (seconds) and the last served variant index. -/
structure CachedFeeds (α : Type) where
  feeds : List (Int × List (List (FeedNote α)))
  timestamp : Int
  lastServedIndex : Int
  deriving Repr, DecidableEq

/-- The user feed cache: sync.Map keyed by strings. -/
abbrev FeedCache (α : Type) := List (String × CachedFeeds α)

/-- getCacheKey of the kind-aware revisions. -/
def getCacheKey (userID : String) (kind : Int) : String :=
  userID ++ "_kind_" ++ toString kind

namespace KindAlgo

/-- distributeGroup: the seeding loop body of part_004 generateFeedVariants
for one author group: note i of the group goes to variant i, when the
variant is not yet full. -/
def distributeGroup {α : Type} (variantSize : Nat)
    (variants : List (List (FeedNote α))) (notes : List (FeedNote α)) :
    List (List (FeedNote α)) :=
  variants.mapIdx (fun i v =>
    if i < notes.length then
      if v.length < variantSize then v ++ (notes[i]?).toList else v
    else v)

/-- generateFeedVariants of part_004: filter by kind, group by author, seed
note i of each author into variant i, then add viral notes with a used-author
set that is SHARED ACROSS ALL VARIANTS and that does not contain the authors
seeded from the author feed; finally sort and truncate each variant. -/
def generateFeedVariants {α : Type} [LinearOrder α]
    (authorFeed viralFeed : List (FeedNote α)) (variantSize : Nat)
    (kind : Int) : List (List (FeedNote α)) :=
  let filteredAuthorFeed := authorFeed.filter (fun n => n.event.kind == kind)
  let filteredViralFeed := viralFeed.filter (fun n => n.event.kind == kind)
  let authorNotes := groupByAuthor filteredAuthorFeed
  let seeded := authorNotes.foldl
    (fun vs g => distributeGroup variantSize vs g.2)
    (List.replicate numFeedVariants [])
  let blended := addViralAll variantSize filteredViralFeed seeded []
  blended.map (sortAndTruncate variantSize)
where
  /-- The outer viral loop of part_004: thread one used set through all
  variants. -/
  addViralAll (variantSize : Nat) (viral : List (FeedNote α)) :
      List (List (FeedNote α)) → List String → List (List (FeedNote α))
    | [], _ => []
    | f :: fs, used =>
      let r := addViralToFeed variantSize viral f used
      r.1 :: addViralAll variantSize viral fs r.2

/-- storeCachedUserFeeds of part_004: updates the feeds map for the kind and
the timestamp, and stores the entry under the key userID, although reads use
the key getCacheKey userID kind. -/
def storeCachedUserFeeds {α : Type} (now : Int) (userID : String) (kind : Int)
    (feedVariants : List (List (FeedNote α))) (cachedFeeds : CachedFeeds α)
    (cache : FeedCache α) : CachedFeeds α × FeedCache α :=
  let c2 : CachedFeeds α :=
    { feeds := assocStore kind feedVariants cachedFeeds.feeds,
      timestamp := now,
      lastServedIndex := cachedFeeds.lastServedIndex }
  (c2, assocStore userID c2 cache)

/-- getCachedUserFeeds of part_004: reads under the key getCacheKey. -/
def getCachedUserFeeds {α : Type} (userID : String) (kind : Int)
    (cache : FeedCache α) : Option (CachedFeeds α) :=
  assocLoad (getCacheKey userID kind) cache

/-- serveSequentialFeedResult of part_004: serve the variant at index
(lastServedIndex + 1) mod number-of-variants, record the new index and
store the entry (under the wrong key, through storeCachedUserFeeds), then
return the first limit events. The served index is returned for
observation; the source logs it. -/
def serveSequentialFeedResult {α : Type} [LinearOrder α] (now : Int)
    (userID : String) (kind : Int) (cachedFeeds : CachedFeeds α)
    (limit : Nat) (cache : FeedCache α) :
    Option Int × List NostrEvent × FeedCache α :=
  match assocLoad kind cachedFeeds.feeds with
  | none => (none, [], cache)
  | some feedVariants =>
    if feedVariants.length = 0 then (none, [], cache)
    else
      let nextIndex : Int :=
        (cachedFeeds.lastServedIndex + 1).tmod (feedVariants.length : Int)
      let selectedFeed := feedVariants.getD nextIndex.toNat []
      let c2 := { cachedFeeds with lastServedIndex := nextIndex }
      let r := storeCachedUserFeeds now userID kind feedVariants c2 cache
      (some nextIndex, (selectedFeed.take limit).map (fun n => n.event), r.2)

/-- GetUserFeed of part_004, modelled for a single sequential caller (the
pending-request coalescing is concurrency and is out of the model): cache
hit within feedCacheDuration serves sequentially; otherwise the variants
are generated from the author feed and the viral pool snapshot (both passed
in, as the database and the pool cache are external), cached, and served. -/
def GetUserFeed {α : Type} [LinearOrder α] (now : Int) (userID : String)
    (limit : Nat) (kind : Int) (authorFeed viralFeed : List (FeedNote α))
    (cache : FeedCache α) : Option Int × List NostrEvent × FeedCache α :=
  let cachedHit :=
    match getCachedUserFeeds userID kind cache with
    | some c => if now - c.timestamp < feedCacheDuration then some c else none
    | none => none
  match cachedHit with
  | some c => serveSequentialFeedResult now userID kind c limit cache
  | none =>
    let feedVariants := generateFeedVariants authorFeed viralFeed variantFeedSize kind
    let cached0 := (getCachedUserFeeds userID kind cache).getD
      { feeds := [], timestamp := 0, lastServedIndex := 0 }
    let cached1 : CachedFeeds α :=
      { feeds := assocStore kind feedVariants cached0.feeds,
        timestamp := now, lastServedIndex := -1 }
    let r := storeCachedUserFeeds now userID kind feedVariants cached1 cache
    serveSequentialFeedResult now userID kind r.1 limit r.2

end KindAlgo

namespace KindMapAlgo

/-- pickNote: the per-author selection of part_006 for variant i: note i
when the author has that many notes, else wrap around. (For an empty group,
unreachable because groups are built from their own notes, the model yields
none where Go would divide by zero.) -/
def pickNote {α : Type} (i : Nat) (notes : List (FeedNote α)) :
    Option (FeedNote α) :=
  if i < notes.length then notes[i]? else notes[i % notes.length]?

/-- One step of the per-variant author loop of part_006: append the note
pickNote selects for this group and mark the author of the first note of
the group as used. -/
def seedStep {α : Type} (i : Nat)
    (st : List (FeedNote α) × List String)
    (g : String × List (FeedNote α)) : List (FeedNote α) × List String :=
  (st.1 ++ (pickNote i g.2).toList,
    match g.2.head? with
    | some n => n.event.pubkey :: st.2
    | none => st.2)

/-- buildVariant: the body of the per-variant loop of part_006
generateFeedVariants: one note per author group (marking the author of the
first note of the group used), then the shared viral loop, then sort and
truncate. -/
def buildVariant {α : Type} [LinearOrder α] (variantSize : Nat)
    (groups : List (String × List (FeedNote α))) (viral : List (FeedNote α))
    (i : Nat) : List (FeedNote α) :=
  let seeded := groups.foldl (seedStep i) ([], [])
  let blended := addViralToFeed variantSize viral seeded.1 seeded.2
  sortAndTruncate variantSize blended.1

/-- generateFeedVariants of part_006: for each requested kind, filter both
feeds by the kind, group the author feed by author, and build
numFeedVariants variants, each with a used-author set of its own. -/
def generateFeedVariants {α : Type} [LinearOrder α]
    (authorFeed viralFeed : List (FeedNote α)) (variantSize : Nat)
    (kinds : List Int) : List (Int × List (List (FeedNote α))) :=
  kinds.map (fun kind =>
    let filteredAuthorFeed := authorFeed.filter (fun n => n.event.kind == kind)
    let filteredViralFeed := viralFeed.filter (fun n => n.event.kind == kind)
    let authorNotes := groupByAuthor filteredAuthorFeed
    (kind, (List.range numFeedVariants).map
      (buildVariant variantSize authorNotes filteredViralFeed)))

/-- storeCachedUserFeeds of part_006: stores under getCacheKey userID kind
(the same key reads use). -/
def storeCachedUserFeeds {α : Type} (userID : String) (kind : Int)
    (cachedFeeds : CachedFeeds α) (cache : FeedCache α) : FeedCache α :=
  assocStore (getCacheKey userID kind) cachedFeeds cache

/-- serveSequentialFeedResult of part_006: serve the variant at index
(lastServedIndex + 1) mod number-of-variants, record the new index in the
cache, and return the first limit events (and, for observation, the served
index, which the source logs). -/
def serveSequentialFeedResult {α : Type} [LinearOrder α] (userID : String)
    (kind : Int) (cachedFeeds : CachedFeeds α) (limit : Nat)
    (cache : FeedCache α) : Option Int × List NostrEvent × FeedCache α :=
  match assocLoad kind cachedFeeds.feeds with
  | none => (none, [], cache)
  | some feedVariants =>
    if feedVariants.length = 0 then (none, [], cache)
    else
      let nextIndex : Int :=
        (cachedFeeds.lastServedIndex + 1).tmod (feedVariants.length : Int)
      let selectedFeed := feedVariants.getD nextIndex.toNat []
      let c2 := { cachedFeeds with lastServedIndex := nextIndex }
      let cache2 := storeCachedUserFeeds userID kind c2 cache
      (some nextIndex, (selectedFeed.take limit).map (fun n => n.event), cache2)

/-- GetUserFeed of part_006, modelled for a single sequential caller: a
fresh cache entry is served sequentially; otherwise variants are generated
(author feed and viral pool snapshot passed in), cached under getCacheKey
with lastServedIndex -1, and served. -/
def GetUserFeed {α : Type} [LinearOrder α] (now : Int) (userID : String)
    (limit : Nat) (kind : Int) (authorFeed viralFeed : List (FeedNote α))
    (cache : FeedCache α) : Option Int × List NostrEvent × FeedCache α :=
  let cachedHit :=
    match assocLoad (getCacheKey userID kind) cache with
    | some c => if now - c.timestamp < feedCacheDuration then some c else none
    | none => none
  match cachedHit with
  | some c => serveSequentialFeedResult userID kind c limit cache
  | none =>
    let feedVariants := generateFeedVariants authorFeed viralFeed variantFeedSize [kind]
    let cachedFeeds : CachedFeeds α :=
      { feeds := feedVariants, timestamp := now, lastServedIndex := -1 }
    let cache2 := storeCachedUserFeeds userID kind cachedFeeds cache
    serveSequentialFeedResult userID kind cachedFeeds limit cache2

end KindMapAlgo

/-- A kind-1 event whose only e-tag is the two-element tag e, abc. -/
def bareETagEvent : NostrEvent := ⟨"id1", "p1", 1, 0, "", [["e", "abc"]]⟩

/-- A kind-3 (follow list) event with no tags. -/
def kind3Event : NostrEvent := ⟨"id3", "p3", 3, 0, "", []⟩

/-- A kind-1 note authored by the viewer v. -/
def selfNote : NostrEvent := ⟨"nself", "v", 1, 0, "", []⟩

/-- The viewer-authored note as a scored viral-pool entry. -/
def selfFeedNote : FeedNote ℚ := ⟨selfNote, 5⟩

/-- First kind-1 note by author A. -/
def noteA1 : NostrEvent := ⟨"n1", "A", 1, 0, "", []⟩

/-- Second kind-1 note by author A. -/
def noteA2 : NostrEvent := ⟨"n2", "A", 1, 0, "", []⟩

/-- The first note by A as an affinity-feed entry, score 3. -/
def feedNoteA1 : FeedNote ℚ := ⟨noteA1, 3⟩

/-- The second note by A as a viral-pool entry, score 2. -/
def feedNoteA2 : FeedNote ℚ := ⟨noteA2, 2⟩

namespace KindMapAlgo

/-- Harness for successive feed requests: run GetUserFeed once per listed
time, threading the cache, and collect the served variant indices. -/
def runRequests {α : Type} [LinearOrder α] (u : String) (kind : Int)
    (limit : Nat) (af vf : List (FeedNote α)) :
    List Int → FeedCache α → List (Option Int)
  | [], _ => []
  | t :: ts, cache =>
    let r := GetUserFeed t u limit kind af vf cache
    r.1 :: runRequests u kind limit af vf ts r.2.2

end KindMapAlgo

/-- Characterisation of the getRootNoteID loop: it returns element 1 of the
first tag satisfying isRootCandidate, or the empty string. -/
theorem getRootNoteID_eq_find (tags : List (List String)) :
    getRootNoteID tags =
      ((tags.find? isRootCandidate).map (fun t => t.getD 1 "")).getD "" := by
  induction tags with
  | nil => rfl
  | cons tag rest ih =>
    simp only [getRootNoteID]
    split_ifs with h1 h2
    · have hc : isRootCandidate tag = true := by
        simp only [isRootCandidate, decide_eq_true_eq]
        exact ⟨h2.1, h1.2, h2.2⟩
      rw [List.find?_cons_of_pos _ hc]
      rfl
    · have hc : ¬ (isRootCandidate tag = true) := by
        simp only [isRootCandidate, decide_eq_true_eq]
        intro h
        exact h2 ⟨h.1, h.2.2⟩
      rw [List.find?_cons_of_neg _ hc]
      exact ih
    · have hc : ¬ (isRootCandidate tag = true) := by
        simp only [isRootCandidate, decide_eq_true_eq]
        intro h
        exact h1 ⟨by omega, h.2.1⟩
      rw [List.find?_cons_of_neg _ hc]
      exact ih

/-- Characterisation of the getTaggedPostID loop by List.find?. -/
theorem getTaggedPostID_eq_find (tags : List (List String)) :
    getTaggedPostID tags =
      match firstTagNamed "e" tags with
      | none => .fault
      | some t =>
        match t[1]? with
        | some v => .ok v
        | none => .panics := by
  induction tags with
  | nil => rfl
  | cons tag rest ih =>
    simp only [getTaggedPostID, firstTagNamed]
    split_ifs with h1
    · rw [List.find?_cons_of_pos _ (by simpa using h1)]
    · rw [List.find?_cons_of_neg _ (by simpa using h1)]
      exact ih

/-- Characterisation of the getZapperID loop by List.find?. -/
theorem getZapperID_eq_find (parse : String → Option String)
    (tags : List (List String)) :
    getZapperID parse tags =
      match firstTagNamed "description" tags with
      | none => .fault
      | some t =>
        match t[1]? with
        | some d =>
          match parse d with
          | some pk => .ok pk
          | none => .fault
        | none => .panics := by
  induction tags with
  | nil => rfl
  | cons tag rest ih =>
    simp only [getZapperID, firstTagNamed]
    split_ifs with h1
    · rw [List.find?_cons_of_pos _ (by simpa using h1)]
    · rw [List.find?_cons_of_neg _ (by simpa using h1)]
      exact ih

/-- The clamped recency factor of a note of age zero is exactly 1. -/
theorem clamped_recency_at_zero (d : ℝ) :
    KindAlgo.calculateRecencyFactor d 0 = 1 := by
  unfold KindAlgo.calculateRecencyFactor
  norm_num

/-- Claim C3 (amended): a kind-1 event is classified by selecting the FIRST
tag, in tag order, that has length at least 3, element 0 equal to e and
element 2 equal to root or to the empty string (isRootCandidate). If no tag
qualifies, or the selected tag has an empty element 1, the event is recorded
as a Note; otherwise as a Comment whose root note id is element 1 of the
selected tag. So an e-tag of length 2 is never selected, a root marker does not
take precedence over an earlier empty marker, and a first qualifying tag
with empty element 1 forces a Note even when a later qualifying tag has a
non-empty one. -/
theorem kind1_comment_rule :
    (∀ tags : List (List String),
      getRootNoteID tags =
        ((tags.find? isRootCandidate).map (fun t => t.getD 1 "")).getD "") ∧
    (∀ ev : NostrEvent,
      savePostOrComment ev =
        match (ev.tags.find? isRootCandidate).map (fun t => t.getD 1 "") with
        | some r => if r = "" then .note else .comment r
        | none => .note) := by
  refine ⟨getRootNoteID_eq_find, fun ev => ?_⟩
  unfold savePostOrComment
  rw [getRootNoteID_eq_find]
  cases h : (ev.tags.find? isRootCandidate).map (fun t => t.getD 1 "") with
  | none => simp
  | some r =>
    by_cases hr : r = ""
    · simp [hr]
    · simp [hr]

/-- Claim C3, counterexample: a kind-1 event whose only e-tag is the
two-element tag e, abc is recorded as a Note, not as a Comment with root
note id abc as the claim states. -/
theorem bare_etag_saved_as_note :
    savePostOrComment bareETagEvent = .note ∧
    savePostOrComment bareETagEvent ≠ .comment "abc" := by
  decide

/-- Claim C6 (amended): SaveNostrEvent persists only kinds 1, 7 and 9735;
every other kind, including kind 3 (follow list), kind 30023 (long-form
article) and kind 20 (image), is NOT persisted as a Note but rejected with
an unhandled-event-kind error. -/
theorem unhandled_kind_is_error (parse : String → Option String)
    (hrp : String → Option Int) (ev : NostrEvent)
    (h1 : ev.kind ≠ 1) (h7 : ev.kind ≠ 7) (h9735 : ev.kind ≠ 9735) :
    SaveNostrEvent parse hrp ev = .unhandled ev.kind := by
  unfold SaveNostrEvent
  rw [if_neg h1, if_neg h7, if_neg h9735]

/-- Claim C6, witness: the amended theorem applied to a concrete kind-3
event. -/
theorem unhandled_kind_is_error_witness :
    ((3 : Int) ≠ 1 ∧ (3 : Int) ≠ 7 ∧ (3 : Int) ≠ 9735) ∧
    SaveNostrEvent (fun _ => none) (fun _ => none) kind3Event = .unhandled 3 :=
  ⟨by decide,
    unhandled_kind_is_error (fun _ => none) (fun _ => none) kind3Event
      (by decide) (by decide) (by decide)⟩

/-- Claim C6, counterexample: a kind-3 event is not saved as a Note, and the
outcome is the unhandled-kind error rather than a silent skip. -/
theorem kind3_rejected_not_saved :
    SaveNostrEvent (fun _ => none) (fun _ => none) kind3Event = .unhandled 3 ∧
    SaveNostrEvent (fun _ => none) (fun _ => none) kind3Event ≠ .note := by
  decide

/-- Claim C10: getTaggedPostID and getZapperID check only that the matching
tag is non-empty before reading index 1; when the first matching tag has
length at least 2 the access is in bounds and extraction succeeds, and when
it is a single-element tag the access is out of bounds (a Go panic), so
extraction is undefined there. -/
theorem tag_index_partiality :
    (∀ (tags : List (List String)) (t : List String),
      firstTagNamed "e" tags = some t → 2 ≤ t.length →
      getTaggedPostID tags = .ok (t.getD 1 "")) ∧
    getTaggedPostID [["e"]] = .panics ∧
    (∀ (parse : String → Option String) (tags : List (List String))
      (t : List String),
      firstTagNamed "description" tags = some t → 2 ≤ t.length →
      getZapperID parse tags ≠ .panics) ∧
    (∀ parse : String → Option String,
      getZapperID parse [["description"]] = .panics) := by
  refine ⟨?_, by decide, ?_, ?_⟩
  · intro tags t hfind hlen
    rw [getTaggedPostID_eq_find, hfind]
    cases hx : t[1]? with
    | none =>
      have := List.getElem?_eq_none_iff.mp hx
      omega
    | some v => simp [List.getD, hx]
  · intro parse tags t hfind hlen
    rw [getZapperID_eq_find, hfind]
    cases hx : t[1]? with
    | none =>
      have := List.getElem?_eq_none_iff.mp hx
      omega
    | some d =>
      simp only [hx]
      cases parse d <;> simp
  · intro parse
    rfl

/-- Claim C10, witness: in-bounds extraction on the two-element tag e, x. -/
theorem tag_index_partiality_witness :
    firstTagNamed "e" [["e", "x"]] = some ["e", "x"] ∧
    2 ≤ (["e", "x"] : List String).length ∧
    getTaggedPostID [["e", "x"]] = .ok "x" :=
  ⟨by decide, by decide,
    tag_index_partiality.1 [["e", "x"]] ["e", "x"] (by decide) (by decide)⟩

/-- Claim C4: evaluation at the failing input. With all weights 1, zero
global counts, age 0 and interaction count 2, the calculateAuthorPostScore
revision (part_005, part_007) yields 2, because its last summand is the
author weight multiplied by itself and the interaction count is not even an
input; the specified formula (and calculateAuthorNoteScore of part_004,
which implements it) yields 3. -/
theorem author_post_score_ignores_interactions :
    SimpleAlgo.calculateAuthorPostScore unitWeights 0 zeroMeta = 2 ∧
    specAffinityScore unitWeights 0 0 0
      (SimpleAlgo.calculateRecencyFactor 1 0) 2 = 3 ∧
    KindAlgo.calculateAuthorNoteScore unitWeights 0 zeroMeta 2 = 3 := by
  unfold SimpleAlgo.calculateAuthorPostScore SimpleAlgo.calculateRecencyFactor
    specAffinityScore KindAlgo.calculateAuthorNoteScore unitWeights zeroMeta
  norm_num [clamped_recency_at_zero]

/-- Claim C5 (amended): the calculateRecencyFactor revision of part_004,
part_006 and algorithm.go equals clamp(exp(-DECAY_RATE * age) * 100, 0.001,
1.0) and always lies in the closed interval from 0.001 to 1; the revision
of part_005 and part_007 returns the bare exponential, which violates the
claimed bounds. -/
theorem recency_factor_clamped (d h : ℝ) :
    KindAlgo.calculateRecencyFactor d h =
      specClamp 0.001 1 (Real.exp (-(d * h)) * 100) ∧
    0.001 ≤ KindAlgo.calculateRecencyFactor d h ∧
    KindAlgo.calculateRecencyFactor d h ≤ 1 := by
  unfold KindAlgo.calculateRecencyFactor specClamp
  dsimp only
  rw [show (100.0 : ℝ) = 100 from by norm_num,
    show (1.0 : ℝ) = 1 from by norm_num]
  set x := Real.exp (-(d * h)) * 100 with hx
  split_ifs with h1 h2
  · rw [min_eq_left h1.le, max_eq_right (show (0.001 : ℝ) ≤ 1 by norm_num)]
    norm_num
  · push_neg at h1
    rw [min_eq_right h1, max_eq_left h2.le]
    norm_num
  · push_neg at h1 h2
    rw [min_eq_right h1, max_eq_right h2]
    exact ⟨rfl, h2, h1⟩

/-- Claim C5, counterexample: the unclamped revision (part_005, part_007)
at decay rate 1 and age -1 hours (a future-dated event) returns exp 1,
which is greater than 1, outside the claimed interval. -/
theorem unclamped_recency_exceeds_one :
    SimpleAlgo.calculateRecencyFactor 1 (-1) = Real.exp 1 ∧
    1 < SimpleAlgo.calculateRecencyFactor 1 (-1) := by
  have heq : SimpleAlgo.calculateRecencyFactor 1 (-1) = Real.exp 1 := by
    unfold SimpleAlgo.calculateRecencyFactor
    norm_num
  refine ⟨heq, ?_⟩
  rw [heq]
  have := Real.add_one_le_exp 1
  linarith

/-- Claim C8: with non-negative weights, the affinity score
calculateAuthorNoteScore weakly increases when any one of the global
comment, reaction or zap counts or the viewer-author interaction count is
strictly increased with all other inputs held fixed. -/
theorem author_note_score_monotone (w : Weights)
    (hC : 0 ≤ w.commentsGlobal) (hR : 0 ≤ w.reactionsGlobal)
    (hZ : 0 ≤ w.zapsGlobal) (hA : 0 ≤ w.interactionsWithAuthor)
    (now : ℝ) (e : EventWithMeta) (i : Int) :
    (∀ c2, e.globalCommentsCount < c2 →
      KindAlgo.calculateAuthorNoteScore w now e i ≤
        KindAlgo.calculateAuthorNoteScore w now
          { e with globalCommentsCount := c2 } i) ∧
    (∀ r2, e.globalReactionsCount < r2 →
      KindAlgo.calculateAuthorNoteScore w now e i ≤
        KindAlgo.calculateAuthorNoteScore w now
          { e with globalReactionsCount := r2 } i) ∧
    (∀ z2, e.globalZapsCount < z2 →
      KindAlgo.calculateAuthorNoteScore w now e i ≤
        KindAlgo.calculateAuthorNoteScore w now
          { e with globalZapsCount := z2 } i) ∧
    (∀ i2, i < i2 →
      KindAlgo.calculateAuthorNoteScore w now e i ≤
        KindAlgo.calculateAuthorNoteScore w now e i2) := by
  refine ⟨?_, ?_, ?_, ?_⟩
  · intro x hx
    unfold KindAlgo.calculateAuthorNoteScore
    dsimp only
    have hcast : (e.globalCommentsCount : ℝ) ≤ (x : ℝ) := by
      exact_mod_cast hx.le
    nlinarith [mul_le_mul_of_nonneg_right hcast hC]
  · intro x hx
    unfold KindAlgo.calculateAuthorNoteScore
    dsimp only
    have hcast : (e.globalReactionsCount : ℝ) ≤ (x : ℝ) := by
      exact_mod_cast hx.le
    nlinarith [mul_le_mul_of_nonneg_right hcast hR]
  · intro x hx
    unfold KindAlgo.calculateAuthorNoteScore
    dsimp only
    have hcast : (e.globalZapsCount : ℝ) ≤ (x : ℝ) := by
      exact_mod_cast hx.le
    nlinarith [mul_le_mul_of_nonneg_right hcast hZ]
  · intro x hx
    unfold KindAlgo.calculateAuthorNoteScore
    dsimp only
    have hcast : ((i : ℝ)) ≤ (x : ℝ) := by
      exact_mod_cast hx.le
    nlinarith [mul_le_mul_of_nonneg_right hcast hA]

/-- Claim C8, witness: monotonicity in the interaction count at the unit
weights, comparing counts 2 and 5. -/
theorem author_note_score_monotone_witness :
    ((0 : ℝ) ≤ 1 ∧ (2 : Int) < 5) ∧
    KindAlgo.calculateAuthorNoteScore unitWeights 0 zeroMeta 2 ≤
      KindAlgo.calculateAuthorNoteScore unitWeights 0 zeroMeta 5 :=
  ⟨⟨by norm_num, by norm_num⟩,
    (author_note_score_monotone unitWeights (by norm_num [unitWeights])
      (by norm_num [unitWeights]) (by norm_num [unitWeights])
      (by norm_num [unitWeights]) 0 zeroMeta 2).2.2.2 5 (by norm_num)⟩

/-- Each grouping step preserves well-formedness of the author grouping. -/
theorem insertByAuthor_wf {α : Type} (acc : List (String × List (FeedNote α)))
    (n : FeedNote α) (h : GroupsWF acc) : GroupsWF (insertByAuthor acc n) := by
  obtain ⟨hkeys, hmem⟩ := h
  unfold insertByAuthor
  split_ifs with hany
  · constructor
    · have hfst : (acc.map (fun p =>
          if p.1 == n.event.pubkey then (p.1, p.2 ++ [n]) else p)).map Prod.fst
          = acc.map Prod.fst := by
        rw [List.map_map]
        apply List.map_congr_left
        intro p _
        by_cases hpk : p.1 = n.event.pubkey
        · simp [hpk]
        · simp [hpk]
      rw [hfst]
      exact hkeys
    · intro g hg
      obtain ⟨p, hp, rfl⟩ := List.mem_map.mp hg
      by_cases hpk : (p.1 == n.event.pubkey) = true
      · rw [if_pos hpk]
        refine ⟨by simp, ?_⟩
        intro m hm
        rcases List.mem_append.mp hm with hm1 | hm2
        · exact (hmem p hp).2 m hm1
        · rw [List.mem_singleton.mp hm2]
          exact (eq_of_beq hpk).symm
      · rw [if_neg hpk]
        exact hmem p hp
  · have hnotin : n.event.pubkey ∉ acc.map Prod.fst := by
      intro hin
      obtain ⟨p, hp, hfst⟩ := List.mem_map.mp hin
      apply hany
      exact List.any_eq_true.mpr ⟨p, hp, by simp [hfst]⟩
    constructor
    · rw [List.map_append]
      refine hkeys.append (by simp) ?_
      intro a ha hb
      rw [show (([(n.event.pubkey, [n])] :
          List (String × List (FeedNote α))).map Prod.fst) =
        [n.event.pubkey] from rfl] at hb
      rw [List.mem_singleton.mp hb] at ha
      exact hnotin ha
    · intro g hg
      rcases List.mem_append.mp hg with hg1 | hg2
      · exact hmem g hg1
      · rw [List.mem_singleton.mp hg2]
        exact ⟨by simp, by intro m hm; rw [List.mem_singleton.mp hm]⟩

/-- The author grouping built by groupByAuthor is well-formed. -/
theorem groupByAuthor_wf {α : Type} (feed : List (FeedNote α)) :
    GroupsWF (groupByAuthor feed) := by
  unfold groupByAuthor
  have h : ∀ (acc : List (String × List (FeedNote α))), GroupsWF acc →
      GroupsWF (feed.foldl insertByAuthor acc) := by
    induction feed with
    | nil => intro acc h; exact h
    | cons m rest ih =>
      intro acc hacc
      rw [List.foldl_cons]
      exact ih _ (insertByAuthor_wf acc m hacc)
  exact h [] ⟨by simp, by simp⟩

/-- pickNote on a non-empty group always selects a member of the group. -/
theorem pickNote_mem {α : Type} (i : Nat) (ns : List (FeedNote α))
    (h : ns ≠ []) :
    ∃ x, KindMapAlgo.pickNote i ns = some x ∧ x ∈ ns := by
  unfold KindMapAlgo.pickNote
  split_ifs with hi
  · exact ⟨ns.get ⟨i, hi⟩, by simp [List.getElem?_eq_getElem hi],
      List.get_mem ns i hi⟩
  · have hlen : 0 < ns.length := List.length_pos.mpr h
    have hlt : i % ns.length < ns.length := Nat.mod_lt _ hlen
    exact ⟨ns.get ⟨i % ns.length, hlt⟩, by simp [List.getElem?_eq_getElem hlt],
      List.get_mem ns (i % ns.length) hlt⟩

/-- Invariant of the part_006 seeding fold: starting from a feed whose
authors are distinct and all recorded as used, folding well-formed author
groups whose keys are distinct and not yet used keeps the feed authors
distinct and keeps every feed author in the used set. -/
theorem seedFold_ok {α : Type} (i : Nat) :
    ∀ (gs : List (String × List (FeedNote α)))
      (st : List (FeedNote α) × List String),
      (gs.map Prod.fst).Nodup →
      (∀ g ∈ gs, g.2 ≠ [] ∧ ∀ n ∈ g.2, n.event.pubkey = g.1) →
      (st.1.map noteAuthor).Nodup →
      (∀ n ∈ st.1, n.event.pubkey ∈ st.2) →
      (∀ g ∈ gs, g.1 ∉ st.2) →
      ((gs.foldl (KindMapAlgo.seedStep i) st).1.map noteAuthor).Nodup ∧
        ∀ n ∈ (gs.foldl (KindMapAlgo.seedStep i) st).1,
          n.event.pubkey ∈ (gs.foldl (KindMapAlgo.seedStep i) st).2 := by
  intro gs
  induction gs with
  | nil => intro st _ _ h3 h4 _; exact ⟨h3, h4⟩
  | cons g rest ih =>
    intro st hkeys hgood h3 h4 h5
    rw [List.foldl_cons]
    obtain ⟨hne, hmemg⟩ := hgood g (by simp)
    obtain ⟨x, hx, hxmem⟩ := pickNote_mem i g.2 hne
    obtain ⟨a, t, hat⟩ := List.exists_cons_of_ne_nil hne
    have hhead : g.2.head? = some a := by rw [hat]; rfl
    have hapub : a.event.pubkey = g.1 := hmemg a (by rw [hat]; simp)
    have hxpub : x.event.pubkey = g.1 := hmemg x hxmem
    have hstep : KindMapAlgo.seedStep i st g = (st.1 ++ [x], g.1 :: st.2) := by
      unfold KindMapAlgo.seedStep
      rw [hx, hhead]
      dsimp only [Option.toList]
      rw [hapub]
    rw [hstep]
    have hg1used : g.1 ∉ st.2 := h5 g (by simp)
    have hg1feed : g.1 ∉ st.1.map noteAuthor := by
      intro hin
      obtain ⟨m, hm, hmp⟩ := List.mem_map.mp hin
      exact hg1used (hmp ▸ h4 m hm)
    apply ih
    · exact (List.nodup_cons.mp hkeys).2
    · intro g2 hg2; exact hgood g2 (by simp [hg2])
    · rw [List.map_append]
      refine h3.append (by simp) ?_
      intro b hb hb2
      have : b = g.1 := by
        rcases List.mem_singleton.mp (by simpa [noteAuthor, hxpub] using hb2)
        rfl
      rw [this] at hb
      exact hg1feed hb
    · intro m hm
      rcases List.mem_append.mp hm with hm1 | hm2
      · exact List.mem_cons_of_mem _ (h4 m hm1)
      · rw [List.mem_singleton.mp hm2, hxpub]
        exact List.mem_cons_self _ _
    · intro g2 hg2
      have hne2 : g2.1 ≠ g.1 := by
        intro heq
        have : g.1 ∈ rest.map Prod.fst :=
          heq ▸ List.mem_map.mpr ⟨g2, hg2, rfl⟩
        exact (List.nodup_cons.mp hkeys).1 this
      intro hin
      rcases List.mem_cons.mp hin with h | h
      · exact hne2 h
      · exact h5 g2 (by simp [hg2]) h

/-- The shared viral loop preserves distinctness of the feed authors, given
that every feed author is recorded in the used set. -/
theorem addViralToFeed_nodup {α : Type} (vs : Nat) :
    ∀ (viral feed : List (FeedNote α)) (used : List String),
      (feed.map noteAuthor).Nodup → (∀ n ∈ feed, n.event.pubkey ∈ used) →
      ((addViralToFeed vs viral feed used).1.map noteAuthor).Nodup := by
  intro viral
  induction viral with
  | nil => intro feed used h1 _; simpa [addViralToFeed] using h1
  | cons v rest ih =>
    intro feed used h1 h2
    simp only [addViralToFeed]
    split_ifs with hfull hcont
    · exact h1
    · exact ih feed used h1 h2
    · apply ih
      · have hvused : v.event.pubkey ∉ used := by simpa using hcont
        have hvfeed : v.event.pubkey ∉ feed.map noteAuthor := by
          intro hin
          obtain ⟨m, hm, hmp⟩ := List.mem_map.mp hin
          exact hvused (hmp ▸ h2 m hm)
        rw [List.map_append]
        refine h1.append (by simp) ?_
        intro b hb hb2
        have hbv : b = v.event.pubkey :=
          List.mem_singleton.mp (by simpa [noteAuthor] using hb2)
        rw [hbv] at hb
        exact hvfeed hb
      · intro m hm
        rcases List.mem_append.mp hm with hm1 | hm2
        · exact List.mem_cons_of_mem _ (h2 m hm1)
        · rw [List.mem_singleton.mp hm2]
          exact List.mem_cons_self _ _

/-- Sorting (a permutation) and truncating (a sublist) preserve the
distinctness of the feed authors. -/
theorem sortAndTruncate_nodup {α : Type} [LinearOrder α] (vs : Nat)
    (feed : List (FeedNote α)) (h : (feed.map noteAuthor).Nodup) :
    ((sortAndTruncate vs feed).map noteAuthor).Nodup := by
  unfold sortAndTruncate
  have hperm : List.Perm (List.insertionSort scoreDescRel feed) feed :=
    List.perm_insertionSort scoreDescRel feed
  have h2 : ((List.insertionSort scoreDescRel feed).map noteAuthor).Nodup :=
    ((hperm.map noteAuthor).nodup_iff).mpr h
  rw [List.map_take]
  exact List.Nodup.sublist (List.take_sublist _ _) h2

/-- Every variant built by the part_006 per-variant loop from a well-formed
grouping has pairwise distinct authors. -/
theorem buildVariant_authors_nodup {α : Type} [LinearOrder α] (vs : Nat)
    (groups : List (String × List (FeedNote α))) (viral : List (FeedNote α))
    (i : Nat) (hWF : GroupsWF groups) :
    ((KindMapAlgo.buildVariant vs groups viral i).map noteAuthor).Nodup := by
  unfold KindMapAlgo.buildVariant
  dsimp only
  have hseed := seedFold_ok i groups ([], []) hWF.1 hWF.2
    (by simp) (by simp) (by simp)
  exact sortAndTruncate_nodup vs _
    (addViralToFeed_nodup vs viral _ _ hseed.1 hseed.2)

/-- Claim C2 (amended): in the part_006 revision of generateFeedVariants,
whose used-author set is per variant and covers the affinity-seeded authors,
no two entries of any produced variant share an author pubkey. (The part_004
revision does not guarantee this across affinity and viral entries; see the
counterexample.) -/
theorem kindmap_variant_authors_distinct {α : Type} [LinearOrder α]
    (authorFeed viralFeed : List (FeedNote α)) (variantSize : Nat)
    (kinds : List Int) (kv : Int × List (List (FeedNote α)))
    (hkv : kv ∈ KindMapAlgo.generateFeedVariants authorFeed viralFeed
      variantSize kinds)
    (variant : List (FeedNote α)) (hv : variant ∈ kv.2) :
    (variant.map noteAuthor).Nodup := by
  unfold KindMapAlgo.generateFeedVariants at hkv
  obtain ⟨kind, _, rfl⟩ := List.mem_map.mp hkv
  dsimp only at hv
  obtain ⟨i, _, rfl⟩ := List.mem_map.mp hv
  exact buildVariant_authors_nodup variantSize _ _ i
    (groupByAuthor_wf _)

/-- Claim C2, witness: the amended theorem applied to a one-note author feed
and a same-author viral note; part_006 excludes the viral duplicate, so all
five variants are the single affinity note. -/
theorem kindmap_variant_authors_distinct_witness :
    ((1 : Int), List.replicate 5 [feedNoteA1]) ∈
      KindMapAlgo.generateFeedVariants (α := ℚ) [feedNoteA1] [feedNoteA2]
        100 [1] ∧
    [feedNoteA1] ∈ ((1 : Int), List.replicate 5 [feedNoteA1]).2 ∧
    (([feedNoteA1].map noteAuthor).Nodup) :=
  ⟨by decide, by decide,
    kindmap_variant_authors_distinct (α := ℚ) [feedNoteA1] [feedNoteA2] 100 [1]
      ((1 : Int), List.replicate 5 [feedNoteA1]) (by decide)
      [feedNoteA1] (by decide)⟩

/-- Claim C2, counterexample: in the part_004 revision, with one kind-1
affinity note by author A and one kind-1 viral note by the same author A,
variant 0 contains both notes, so two entries of one variant share an
author, contradicting the claim. -/
theorem kindalgo_variant_duplicate_author :
    ((KindAlgo.generateFeedVariants (α := ℚ) [feedNoteA1] [feedNoteA2]
        100 1).getD 0 []) = [feedNoteA1, feedNoteA2] ∧
    noteAuthor feedNoteA1 = noteAuthor feedNoteA2 ∧
    ¬ (([feedNoteA1, feedNoteA2].map noteAuthor).Nodup) := by
  refine ⟨by decide, rfl, by decide⟩

/-- Claim C1: evaluation at the failing input. In the part_004 revision,
with viewer v, an empty author feed and a viral pool holding one kind-1
note authored by v, the feed served to v consists exactly of the note
authored by v: no viewer-exclusion filter exists on this path. -/
theorem kindalgo_serves_viewers_own_note :
    (KindAlgo.GetUserFeed (α := ℚ) 0 "v" 10 1 [] [selfFeedNote] []).2.1 =
      [selfNote] ∧
    selfNote.pubkey = "v" := by
  constructor
  · decide
  · rfl

/-- Claim C7, counterexample: in the part_004 revision the entry is stored
under the key userID but read under the key userID_kind_K, so the second
request within the cache window regenerates and serves variant 0 again
instead of variant 1 as the claim states. -/
theorem kindalgo_no_rotation_on_second_request :
    (let r1 := KindAlgo.GetUserFeed (α := ℚ) 0 "v" 10 1 [feedNoteA1] [] [];
     let r2 := KindAlgo.GetUserFeed (α := ℚ) 60 "v" 10 1 [feedNoteA1] []
       r1.2.2;
     (r1.1, r2.1)) = (some 0, some 0) ∧
    ¬ ((some (0 : Int), some (0 : Int)) = (some (0 : Int), some (1 : Int))) := by
  refine ⟨by decide, by decide⟩

/-- Association list lookup of the key just stored in a singleton map. -/
theorem assocLoad_single {κ β : Type} [BEq κ] [LawfulBEq κ] (k : κ) (v : β) :
    assocLoad k [(k, v)] = some v := by
  simp [assocLoad]

/-- Association list update of the only key of a singleton map. -/
theorem assocStore_single {κ β : Type} [BEq κ] [LawfulBEq κ] (k : κ)
    (v v2 : β) : assocStore k v2 [(k, v)] = [(k, v2)] := by
  simp [assocStore]

/-- generateFeedVariants of part_006 on a single kind produces one map entry
holding the five built variants. -/
theorem generateFeedVariants_single {α : Type} [LinearOrder α]
    (af vf : List (FeedNote α)) (vsize : Nat) (kind : Int) :
    KindMapAlgo.generateFeedVariants af vf vsize [kind] =
      [(kind, (List.range numFeedVariants).map
        (KindMapAlgo.buildVariant vsize
          (groupByAuthor (af.filter (fun n => n.event.kind == kind)))
          (vf.filter (fun n => n.event.kind == kind))))] := by
  rfl

/-- A part_006 request on an empty cache generates the variants, caches them
under getCacheKey with the current timestamp, serves variant 0 and records
last served index 0. -/
theorem getUserFeed_empty_cache {α : Type} [LinearOrder α] (now : Int)
    (u : String) (limit : Nat) (kind : Int) (af vf : List (FeedNote α))
    (vs : List (List (FeedNote α)))
    (hvs : KindMapAlgo.generateFeedVariants af vf variantFeedSize [kind] =
      [(kind, vs)])
    (hlen : vs.length = 5) :
    KindMapAlgo.GetUserFeed now u limit kind af vf [] =
      (some 0, ((vs.getD 0 []).take limit).map (fun n => n.event),
        [(getCacheKey u kind,
          { feeds := [(kind, vs)], timestamp := now, lastServedIndex := 0 })]) := by
  unfold KindMapAlgo.GetUserFeed
  simp only [hvs]
  unfold KindMapAlgo.storeCachedUserFeeds
  simp only [assocLoad, List.find?, assocStore, List.any, List.nil_append]
  unfold KindMapAlgo.serveSequentialFeedResult KindMapAlgo.storeCachedUserFeeds
  simp only [assocLoad_single, assocStore_single, hlen]
  norm_num
  rw [assocStore_single]

/-- A part_006 request hitting a fresh cache entry serves the variant at
index (lastServedIndex + 1) mod 5 and stores the advanced index back under
the same key, leaving the timestamp unchanged. -/
theorem getUserFeed_fresh_hit {α : Type} [LinearOrder α] (now : Int)
    (u : String) (limit : Nat) (kind : Int) (af vf : List (FeedNote α))
    (ts last : Int) (vs : List (List (FeedNote α)))
    (hfresh : now - ts < feedCacheDuration)
    (hlen : vs.length = 5) :
    KindMapAlgo.GetUserFeed now u limit kind af vf
      [(getCacheKey u kind,
        { feeds := [(kind, vs)], timestamp := ts, lastServedIndex := last })] =
      (some ((last + 1).tmod 5),
        ((vs.getD ((last + 1).tmod 5).toNat []).take limit).map
          (fun n => n.event),
        [(getCacheKey u kind,
          { feeds := [(kind, vs)], timestamp := ts,
            lastServedIndex := (last + 1).tmod 5 })]) := by
  unfold KindMapAlgo.GetUserFeed
  rw [assocLoad_single]
  simp only [if_pos hfresh]
  unfold KindMapAlgo.serveSequentialFeedResult KindMapAlgo.storeCachedUserFeeds
  simp only [assocLoad_single, assocStore_single, hlen]
  norm_num

/-- Claim C7 (amended): in the part_006 revision, starting from an empty
cache, six successive requests for the same viewer and kind, the later five
within the five-minute window of the first, are served from the variant
indices 0, 1, 2, 3, 4, 0: each request within the window serves the variant
at (last served index + 1) mod 5 and advances the index. (The part_004
revision stores under a different key than it reads and serves variant 0
every time; algorithm.go picks a random variant.) -/
theorem kindmap_round_robin {α : Type} [LinearOrder α] (u : String)
    (kind : Int) (limit : Nat) (af vf : List (FeedNote α))
    (t0 t1 t2 t3 t4 t5 : Int)
    (h1 : t1 - t0 < feedCacheDuration) (h2 : t2 - t0 < feedCacheDuration)
    (h3 : t3 - t0 < feedCacheDuration) (h4 : t4 - t0 < feedCacheDuration)
    (h5 : t5 - t0 < feedCacheDuration) :
    KindMapAlgo.runRequests u kind limit af vf [t0, t1, t2, t3, t4, t5] [] =
      [some 0, some 1, some 2, some 3, some 4, some 0] := by
  have hvs := generateFeedVariants_single af vf variantFeedSize kind
  set vs := (List.range numFeedVariants).map
    (KindMapAlgo.buildVariant variantFeedSize
      (groupByAuthor (af.filter (fun n => n.event.kind == kind)))
      (vf.filter (fun n => n.event.kind == kind))) with hvsdef
  have hlen : vs.length = 5 := by
    rw [hvsdef]
    simp [numFeedVariants]
  simp only [KindMapAlgo.runRequests]
  rw [getUserFeed_empty_cache t0 u limit kind af vf vs hvs hlen]
  dsimp only
  rw [getUserFeed_fresh_hit t1 u limit kind af vf t0 0 vs h1 hlen]
  dsimp only
  rw [show ((0 : Int) + 1).tmod 5 = 1 from by decide]
  rw [getUserFeed_fresh_hit t2 u limit kind af vf t0 1 vs h2 hlen]
  dsimp only
  rw [show ((1 : Int) + 1).tmod 5 = 2 from by decide]
  rw [getUserFeed_fresh_hit t3 u limit kind af vf t0 2 vs h3 hlen]
  dsimp only
  rw [show ((2 : Int) + 1).tmod 5 = 3 from by decide]
  rw [getUserFeed_fresh_hit t4 u limit kind af vf t0 3 vs h4 hlen]
  dsimp only
  rw [show ((3 : Int) + 1).tmod 5 = 4 from by decide]
  rw [getUserFeed_fresh_hit t5 u limit kind af vf t0 4 vs h5 hlen]
  rw [show ((4 : Int) + 1).tmod 5 = 0 from by decide]

/-- Claim C7, witness: six requests at seconds 0, 10, 20, 30, 40, 50 serve
variants 0, 1, 2, 3, 4, 0. -/
theorem kindmap_round_robin_witness :
    ((10 : Int) - 0 < feedCacheDuration ∧ (20 : Int) - 0 < feedCacheDuration ∧
      (30 : Int) - 0 < feedCacheDuration ∧ (40 : Int) - 0 < feedCacheDuration ∧
      (50 : Int) - 0 < feedCacheDuration) ∧
    KindMapAlgo.runRequests (α := ℚ) "v" 1 10 [feedNoteA1] []
      [0, 10, 20, 30, 40, 50] [] =
      [some 0, some 1, some 2, some 3, some 4, some 0] :=
  ⟨by decide,
    kindmap_round_robin "v" 1 10 [feedNoteA1] [] 0 10 20 30 40 50
      (by decide) (by decide) (by decide) (by decide) (by decide)⟩
